import Mathlib

/-!
Verification of the ModularGuard GitHub Action (src/index.ts, src/run.ts,
src/github.ts) against its natural-language specification.

The TypeScript sources are shallowly embedded below: pure string-building
functions become Lean functions on `String`, the orchestrator `run` becomes a
function producing the ordered list of effects it performs, fallible code
returns `Except`/`Option`, and ambient process state (the current working
directory read by Node's `path.relative`) becomes an explicit parameter.
JavaScript strings are modelled at the character level (`String.data`).
-/

/-! ## Data model (run.ts / github.ts type declarations) -/

structure ModularGuardSummary where
  totalModules : Nat
  totalProjects : Nat
  errorCount : Nat
  warningCount : Nat
  isValid : Bool
deriving Repr, DecidableEq

structure ModularGuardProject where
  name : String
  type : String
  filePath : String
  references : List String
deriving Repr, DecidableEq

structure ModularGuardModule where
  moduleName : String
  projects : List ModularGuardProject
deriving Repr, DecidableEq

structure ModularGuardViolation where
  severity : String
  projectName : String
  invalidReference : String
  ruleName : String
  description : String
  suggestion : Option String
  documentationUrl : Option String
  filePath : String
  lineNumber : Nat
  columnNumber : Nat
deriving Repr, DecidableEq

structure ModularGuardResult where
  summary : ModularGuardSummary
  modules : List ModularGuardModule
  violations : List ModularGuardViolation
deriving Repr, DecidableEq

/-! ## JavaScript string helpers -/

/-- JS `s.substring(0, n)`, modelled at the character level. -/
def strTake (s : String) (n : Nat) : String := ⟨s.data.take n⟩

/-- JS `s.replace(/a/g, b)` for a single-character pattern `a`:
every occurrence of `a` is replaced by `b`. -/
def replaceChar (a b : Char) (s : String) : String :=
  ⟨s.data.map (fun c => if c = a then b else c)⟩

/-- JS truthiness of an optional string value (`undefined` and `""` are falsy). -/
def optStrTruthy : Option String → Bool
  | none => false
  | some s => s != ""

/-! ## Severity rendering (github.ts `formatComment`, run.ts
`printViolationsToConsole`, github.ts `mapSeverityToLevel`) -/

/-- Severity icon of the markdown violations table
(github.ts `formatComment`, `violation.severity === 'Error' ? '🔴' : '⚠️'`). -/
def severityIcon (severity : String) : String :=
  if severity = "Error" then "🔴" else "⚠️"

/-- Severity icon of the console report
(run.ts `printViolationsToConsole`, `v.severity === 'Error' ? '🔴' : '⚠️'`). -/
def consoleSeverityIcon (severity : String) : String :=
  if severity = "Error" then "🔴" else "⚠️"

/-- JS `s.toLowerCase()`, modelled character by character (the severity
strings involved are ASCII). -/
def lowerString (s : String) : String := ⟨s.data.map Char.toLower⟩

/-- github.ts `mapSeverityToLevel`: maps a severity string, lowered, to a
GitHub check-run level. -/
def mapSeverityToLevel (severity : String) : String :=
  match lowerString severity with
  | "error" => "failure"
  | "warning" => "warning"
  | _ => "notice"

/-! ## Markdown comment formatting (github.ts `formatComment`) -/

/-- The hidden reconciliation marker embedded in every posted comment. -/
def commentMarker : String := "<!-- modularguard-results -->"

/-- The status badge line of `formatComment`: failed if `errorCount > 0`,
else passed-with-warnings if `warningCount > 0`, else passed. -/
def statusBadge (summary : ModularGuardSummary) : String :=
  if summary.errorCount > 0 then "❌ **Analysis Failed**\n\n"
  else if summary.warningCount > 0 then "⚠️ **Analysis Passed with Warnings**\n\n"
  else "✅ **Analysis Passed**\n\n"

/-- The four labelled counter lines of the `### Summary` block. -/
def summaryCounters (summary : ModularGuardSummary) : String :=
  "- **Total Modules:** " ++ toString summary.totalModules ++ "\n"
  ++ "- **Total Projects:** " ++ toString summary.totalProjects ++ "\n"
  ++ "- **Errors:** " ++ toString summary.errorCount ++ "\n"
  ++ "- **Warnings:** " ++ toString summary.warningCount ++ "\n\n"

/-- The description cell of a violations-table row:
`violation.description.replace(/\n/g, ' ').substring(0, 100)`. -/
def renderedDescription (description : String) : String :=
  strTake (replaceChar '\n' ' ' description) 100

/-- One data row of the markdown violations table (loop body of
`formatComment`). -/
def violationRow (v : ModularGuardViolation) : String :=
  let icon := severityIcon v.severity
  let fileLocation := "`" ++ v.filePath ++ ":" ++ toString v.lineNumber ++ "`"
  let project := v.projectName
  let reference := v.invalidReference
  let description := renderedDescription v.description
  "| " ++ icon ++ " " ++ v.severity ++ " | " ++ fileLocation ++ " | " ++ project
    ++ " | " ++ reference ++ " | " ++ description ++ " |\n"

/-- The `<details>` suggestions section, present only when at least one
violation carries a truthy `suggestion`. -/
def suggestionsSection (violations : List ModularGuardViolation) : String :=
  let violationsWithSuggestions := violations.filter (fun v => optStrTruthy v.suggestion)
  if violationsWithSuggestions.length > 0 then
    "<details>\n<summary>💡 Suggestions</summary>\n\n"
    ++ String.join (violationsWithSuggestions.map (fun v =>
        "**" ++ v.projectName ++ " → " ++ v.invalidReference ++ "**\n"
        ++ v.suggestion.getD "" ++ "\n\n"))
    ++ "</details>\n\n"
  else ""

/-- The violations block of the comment: heading, table header, one row per
violation, then the suggestions section; empty when there are no violations. -/
def violationsBlock (violations : List ModularGuardViolation) : String :=
  if violations.length > 0 then
    "### Violations\n\n"
    ++ "| Severity | File:Line | Project | Invalid Reference | Description |\n"
    ++ "|----------|-----------|---------|-------------------|-------------|\n"
    ++ String.join (violations.map violationRow)
    ++ "\n"
    ++ suggestionsSection violations
  else ""

/-- Trailing run-URL link, present only when a truthy `runUrl` is supplied. -/
def runUrlBlock (runUrl : Option String) : String :=
  if optStrTruthy runUrl then
    "---\n\n[View detailed results](" ++ runUrl.getD "" ++ ")\n"
  else ""

/-- github.ts `formatComment result runUrl`. -/
def formatComment (result : ModularGuardResult) (runUrl : Option String) : String :=
  commentMarker ++ "\n\n"
  ++ "## ModularGuard Analysis Results\n\n"
  ++ statusBadge result.summary
  ++ "### Summary\n\n"
  ++ summaryCounters result.summary
  ++ violationsBlock result.violations
  ++ runUrlBlock runUrl

/-! ## Check run creation (github.ts `createCheckRun`) -/

/-- One check-run annotation record (the object literal built inside
`createCheckRun`; the source field names are `path`, `start_line`, `end_line`,
`start_column`, `end_column`, `annotation_level`, `message`, `title`). -/
structure CheckRunAnnot where
  path : String
  startLine : Nat
  endLine : Nat
  startColumn : Nat
  endColumn : Nat
  level : String
  message : String
  title : String
deriving Repr, DecidableEq

/-- The check-run conclusion: `summary.errorCount > 0 ? 'failure' : 'success'`. -/
def checkRunConclusion (result : ModularGuardResult) : String :=
  if result.summary.errorCount > 0 then "failure" else "success"

/-- The check-run annotation list: `violations.slice(0, 50).map(...)`. -/
def checkRunAnnots (result : ModularGuardResult) : List CheckRunAnnot :=
  (result.violations.take 50).map (fun v =>
    { path := v.filePath
      startLine := v.lineNumber
      endLine := v.lineNumber
      startColumn := v.columnNumber
      endColumn := v.columnNumber
      level := mapSeverityToLevel v.severity
      message := v.description
      title := v.ruleName ++ ": " ++ v.projectName ++ " → " ++ v.invalidReference })

/-- The sentence appended to the check-run summary when more than 50
violations exist, stating how many were omitted. -/
def omittedNote (total : Nat) : String :=
  "\n\n⚠️ Note: Only showing the first 50 annotations. "
  ++ toString (total - 50) ++ " additional violation(s) not shown."

/-- The check-run summary text built by `createCheckRun`. -/
def checkRunSummaryText (result : ModularGuardResult) : String :=
  let summary := result.summary
  let violations := result.violations
  let base :=
    "## ModularGuard Analysis\n\n"
    ++ "**Total Modules:** " ++ toString summary.totalModules ++ "\n"
    ++ "**Total Projects:** " ++ toString summary.totalProjects ++ "\n"
    ++ "**Errors:** " ++ toString summary.errorCount ++ "\n"
    ++ "**Warnings:** " ++ toString summary.warningCount ++ "\n\n"
    ++ (if violations.length > 0 then
          "Found " ++ toString violations.length ++ " violation(s).\n\n"
          ++ "See annotations on the Files Changed tab for details."
        else "No violations found! 🎉")
  if violations.length > 50 then base ++ omittedNote violations.length else base

/-! ## Orchestrator (run.ts `run`) -/

/-- One observable effect performed by run.ts `run`, in program order. -/
inductive RunEvent where
  | downloadBinary
  | executeAnalysis
  | printConsoleReport
  | createCheck (result : ModularGuardResult)
  | postComment (pull : Nat) (body : String)
  | setOutput (key value : String)
  | setFailed (msg : String)
  | logNoViolations
deriving Repr, DecidableEq

/-- The failure message of run.ts `run` when violations are found. -/
def runFailedMessage (result : ModularGuardResult) : String :=
  "ModularGuard analysis found " ++ toString result.violations.length
  ++ " violation(s): " ++ toString result.summary.errorCount
  ++ " error(s) and " ++ toString result.summary.warningCount ++ " warning(s)"

/-! ## Path normalization (github.ts `toWorkspaceRelativePath`)

`toWorkspaceRelativePath` calls Node's `path.relative` (POSIX semantics on the
Linux runner), which resolves both arguments against the process working
directory via `path.resolve`; the working directory is therefore an explicit
`cwd` parameter here.  Paths are modelled as lists of `/`-separated segments. -/

/-- Split a character list at every `/` (JS `split('/')`). -/
def splitSlash : List Char → List (List Char)
  | [] => [[]]
  | c :: rest =>
    if c = '/' then [] :: splitSlash rest
    else
      match splitSlash rest with
      | [] => [[c]]
      | s :: ss => (c :: s) :: ss

/-- The non-empty `/`-separated segments of a character list. -/
def segsOfChars (l : List Char) : List (List Char) :=
  (splitSlash l).filter (fun x => x ≠ [])

/-- The non-empty `/`-separated segments of a path string. -/
def segsOf (s : String) : List (List Char) := segsOfChars s.data

/-- One step of POSIX absolute-path normalization: `.` is dropped, `..` pops
the last kept segment (and is dropped at the root), anything else is kept. -/
def normStep (stack : List (List Char)) (seg : List Char) : List (List Char) :=
  if seg = ['.'] then stack
  else if seg = ['.', '.'] then stack.dropLast
  else stack ++ [seg]

/-- POSIX normalization of the segments of an absolute path. -/
def normAbsSegs (segs : List (List Char)) : List (List Char) :=
  segs.foldl normStep []

/-- Whether a path string is absolute (`path.posix.isAbsolute`). -/
def isAbsolutePath (s : String) : Bool :=
  match s.data with
  | [] => false
  | c :: _ => decide (c = '/')

/-- Node `path.posix.resolve(cwd, p)`, as a normalized segment list:
an absolute `p` is normalized directly, a relative `p` is appended to `cwd`. -/
def resolveSegs (cwd p : String) : List (List Char) :=
  if isAbsolutePath p then normAbsSegs (segsOf p)
  else normAbsSegs (segsOf (cwd ++ "/" ++ p))

/-- Length of the common segment prefix of two resolved paths. -/
def commonSegsLen : List (List Char) → List (List Char) → Nat
  | a :: as, b :: bs => if a = b then commonSegsLen as bs + 1 else 0
  | _, _ => 0

/-- Join segments with `/` (no leading or trailing separator). -/
def joinSegs : List (List Char) → List Char
  | [] => []
  | [s] => s
  | s :: rest => s ++ '/' :: joinSegs rest

/-- Node `path.posix.relative(fromP, toP)` under working directory `cwd`:
both ends are resolved, the common prefix is dropped, and one `..` is emitted
for every remaining segment of the `from` side. -/
def posixRelative (cwd fromP toP : String) : String :=
  let f := resolveSegs cwd fromP
  let t := resolveSegs cwd toP
  let c := commonSegsLen f t
  ⟨joinSegs (List.replicate (f.length - c) ['.', '.'] ++ t.drop c)⟩

/-- github.ts `toWorkspaceRelativePath(absolutePath, workspaceRoot)`:
`path.relative(workspaceRoot, absolutePath).replace(/\\/g, '/')`, with the
ambient working directory made explicit. -/
def toWorkspaceRelativePath (cwd absolutePath workspaceRoot : String) : String :=
  replaceChar '\\' '/' (posixRelative cwd workspaceRoot absolutePath)

/-- The path-rewritten copy of the result built by `run`
(`violations.map(v => ({...v, filePath: toWorkspaceRelativePath(...)}))`). -/
def resultWithRelativePaths (cwd workspaceRoot : String) (result : ModularGuardResult) :
    ModularGuardResult :=
  { result with
    violations := result.violations.map (fun v =>
      { v with filePath := toWorkspaceRelativePath cwd v.filePath workspaceRoot }) }

/-- run.ts `run` (current version), as the ordered list of effects it performs
once the associated pull requests are known and the binary execution produced
`result`: download, execute, console report, then — only in PR context — check
run and one comment per PR, then the four outputs, then the pass/fail
decision (fail whenever any violation exists). -/
def runEvents (cwd workspaceRoot : String) (pulls : List Nat)
    (result : ModularGuardResult) (runUrl : Option String) : List RunEvent :=
  let isInPRContext := pulls.length > 0
  let rewritten := resultWithRelativePaths cwd workspaceRoot result
  [RunEvent.downloadBinary, RunEvent.executeAnalysis, RunEvent.printConsoleReport]
  ++ (if isInPRContext then
        RunEvent.createCheck rewritten
          :: pulls.map (fun p => RunEvent.postComment p (formatComment rewritten runUrl))
      else [])
  ++ [RunEvent.setOutput "violations-count" (toString result.violations.length),
      RunEvent.setOutput "error-count" (toString result.summary.errorCount),
      RunEvent.setOutput "warning-count" (toString result.summary.warningCount),
      RunEvent.setOutput "status" (if result.summary.errorCount > 0 then "failure" else "success")]
  ++ (if result.violations.length > 0 then [RunEvent.setFailed (runFailedMessage result)]
      else [RunEvent.logNoViolations])

/-! ## Comment publication loop (run.ts `run`, github.ts `findExistingComment`
and `createOrUpdateComment`)

The loop body awaits `findExistingComment` (which catches its own API errors
and returns `null`) and then `createOrUpdateComment` (which wraps an API error
in a new `Error` and throws it); the loop itself has no try/catch. -/

/-- One successfully published comment: the PR number and the reconciled
existing-comment id it updated (`none` means a fresh comment was created). -/
structure PublishedComment where
  pull : Nat
  existingId : Option Nat
deriving Repr, DecidableEq

/-- github.ts `findExistingComment`: an API failure during lookup is caught
and logged, and reported as "no existing comment". -/
def findExistingCommentModel (lookupFails : Nat → Bool) (existing : Nat → Option Nat)
    (pull : Nat) : Option Nat :=
  if lookupFails pull then none else existing pull

/-- The thrown message of github.ts `createOrUpdateComment` on failure. -/
def publishErrorMessage (existingId : Option Nat) : String :=
  "Failed to " ++ (if existingId.isSome then "update" else "create") ++ " comment"

/-- The comment publication loop of run.ts `run`: pull requests are processed
in order; a lookup failure only downgrades to "create new", while a publish
failure throws, returning the error and abandoning the rest of the list.
Returns the comments published before any thrown error, and the error. -/
def publishComments (lookupFails : Nat → Bool) (existing : Nat → Option Nat)
    (publishFails : Nat → Bool) : List Nat → List PublishedComment × Option String
  | [] => ([], none)
  | pull :: rest =>
    let existingId := findExistingCommentModel lookupFails existing pull
    if publishFails pull then ([], some (publishErrorMessage existingId))
    else
      let tail := publishComments lookupFails existing publishFails rest
      ({ pull := pull, existingId := existingId } :: tail.1, tail.2)

/-! ## Subprocess output handling (run.ts `executeModularGuard`)

The subprocess is executed with `ignoreReturnCode: true`; its stdout is then
validated.  `JSON.parse` is the platform's JSON parser, so its outcome is a
parameter (`parsed = none` means the stdout is not parseable as JSON); the
validation logic applied to the parsed value is modelled exactly. -/

/-- A parsed JSON value. -/
inductive Json where
  | null
  | bool (b : Bool)
  | num (n : Int)
  | str (s : String)
  | arr (elems : List Json)
  | obj (fields : List (String × Json))

/-- JS truthiness of a JSON value (`null`, `false`, `0` and `""` are falsy;
arrays and objects are always truthy). -/
def jsonTruthy : Json → Bool
  | Json.null => false
  | Json.bool b => b
  | Json.num n => n != 0
  | Json.str s => s != ""
  | Json.arr _ => true
  | Json.obj _ => true

/-- Field access on a parsed JSON value (`undefined` when absent or when the
value is not an object). -/
def jsonGetField : Json → String → Option Json
  | Json.obj fields, key => fields.lookup key
  | _, _ => none

/-- Whether `result.k` is present at all (the field exists on the object). -/
def jsonHasField (j : Json) (key : String) : Bool :=
  (jsonGetField j key).isSome

/-- JS truthiness of `result.k` (`undefined` is falsy). -/
def jsonFieldTruthy (j : Json) (key : String) : Bool :=
  match jsonGetField j key with
  | some v => jsonTruthy v
  | none => false

/-- run.ts `executeModularGuard`, after the subprocess ran: the captured exit
code is only logged; empty stdout throws; unparseable stdout throws; a parsed
value failing `!result.summary || !result.modules || !result.violations`
throws (rewrapped by the catch block); otherwise the parsed value is returned. -/
def executeModularGuard (exitCode : Int) (stdout : String) (parsed : Option Json) :
    Except String Json :=
  let _ := exitCode
  if stdout = "" then Except.error "ModularGuard produced no output"
  else
    match parsed with
    | none => Except.error "Failed to parse ModularGuard output: SyntaxError"
    | some result =>
      if !jsonFieldTruthy result "summary" || !jsonFieldTruthy result "modules"
          || !jsonFieldTruthy result "violations" then
        Except.error
          "Failed to parse ModularGuard output: Invalid ModularGuard output: missing required fields"
      else Except.ok result

/-- Whether a modelled call threw (the `Except.error` side). -/
def isThrown (r : Except String Json) : Bool :=
  match r with
  | Except.error _ => true
  | Except.ok _ => false

/-! ## Concrete sample inputs, used as witnesses (the first two mirror the
fixtures of tests/run.test.ts) -/

/-- A sample error violation (from tests/run.test.ts). -/
def sampleErrorViolation : ModularGuardViolation :=
  { severity := "Error"
    projectName := "Module.Core"
    invalidReference := "Module.Infrastructure"
    ruleName := "ConfigurableRule"
    description := "Core cannot reference infrastructure"
    suggestion := some "Remove the reference"
    documentationUrl := none
    filePath := "src/Module.Core/Module.Core.csproj"
    lineNumber := 15
    columnNumber := 5 }

/-- A sample warning violation. -/
def sampleWarningViolation : ModularGuardViolation :=
  { severity := "Warning"
    projectName := "Module.Api"
    invalidReference := "Module.Data"
    ruleName := "LayerRule"
    description := "Api should not reference Data directly"
    suggestion := none
    documentationUrl := none
    filePath := "src/Module.Api/Module.Api.csproj"
    lineNumber := 10
    columnNumber := 5 }

/-- An analysis result with one warning violation and no errors. -/
def warningOnlyResult : ModularGuardResult :=
  { summary :=
      { totalModules := 2, totalProjects := 10, errorCount := 0, warningCount := 1, isValid := true }
    modules := []
    violations := [sampleWarningViolation] }

/-- An analysis result with no violations at all. -/
def cleanResult : ModularGuardResult :=
  { summary :=
      { totalModules := 3, totalProjects := 15, errorCount := 0, warningCount := 0, isValid := true }
    modules := []
    violations := [] }

/-- An analysis result with 75 violations (the spec's annotation-cap example). -/
def seventyFiveResult : ModularGuardResult :=
  { summary :=
      { totalModules := 1, totalProjects := 2, errorCount := 75, warningCount := 0, isValid := false }
    modules := []
    violations := List.replicate 75 sampleErrorViolation }

/-- An analysis result with one error and nonzero warning count. -/
def errorAndWarningResult : ModularGuardResult :=
  { summary :=
      { totalModules := 2, totalProjects := 10, errorCount := 1, warningCount := 3, isValid := false }
    modules := []
    violations := [sampleErrorViolation] }

/-- A violation whose description contains the markdown column delimiter. -/
def pipeViolation : ModularGuardViolation :=
  { sampleWarningViolation with description := "a|b" }

/-- A parsed JSON object carrying all three required top-level fields, with
`summary` present but `null`. -/
def presentButNullJson : Json :=
  Json.obj [("summary", Json.null), ("modules", Json.arr []), ("violations", Json.arr [])]

/-- A parsed JSON object with all three required fields present and truthy. -/
def goodResultJson : Json :=
  Json.obj [("summary", Json.obj [("errorCount", Json.num 0)]),
            ("modules", Json.arr []), ("violations", Json.arr [])]

/-! # Theorems -/

/-- Strings with equal character data are equal. -/
theorem stringDataExt {a b : String} (h : a.data = b.data) : a = b := by
  cases a; cases b; cases h; rfl

/-- Claim C10: the severity icon in the markdown violations table and in the
console report is chosen by a case-sensitive comparison with `"Error"`: every
other severity string (including `"error"`, `"Warning"`, `"Info"` and
unrecognized strings) is rendered with the warning icon, while the check-run
level mapping `mapSeverityToLevel` lowers its argument first and is
case-insensitive. -/
theorem severityIcon_case_sensitive :
    (∀ s : String, s ≠ "Error" → severityIcon s = "⚠️" ∧ consoleSeverityIcon s = "⚠️")
    ∧ severityIcon "Error" = "🔴" ∧ consoleSeverityIcon "Error" = "🔴"
    ∧ severityIcon "error" = "⚠️"
    ∧ mapSeverityToLevel "error" = "failure" ∧ mapSeverityToLevel "Error" = "failure"
    ∧ mapSeverityToLevel "ERROR" = "failure"
    ∧ mapSeverityToLevel "Warning" = "warning" ∧ mapSeverityToLevel "Info" = "notice"
    ∧ mapSeverityToLevel "unrecognized" = "notice" := by
  refine ⟨fun s hs => ⟨?_, ?_⟩, ?_, ?_, ?_, ?_, ?_, ?_, ?_, ?_, ?_⟩
  · simp [severityIcon, hs]
  · simp [consoleSeverityIcon, hs]
  all_goals decide

/-- Witness for C10 at the concrete severity `"error"`. -/
theorem severityIcon_case_sensitive_witness :
    severityIcon "error" = "⚠️" ∧ consoleSeverityIcon "error" = "⚠️" :=
  severityIcon_case_sensitive.1 "error" (by decide)

/-- The `status` output event emitted by `run` carries a given value exactly
when that value is `"failure"` for `errorCount > 0` and `"success"` otherwise. -/
theorem mem_runEvents_setOutput_status (cwd workspaceRoot : String) (pulls : List Nat)
    (result : ModularGuardResult) (runUrl : Option String) (v : String) :
    RunEvent.setOutput "status" v ∈ runEvents cwd workspaceRoot pulls result runUrl
      ↔ v = (if result.summary.errorCount > 0 then "failure" else "success") := by
  unfold runEvents
  by_cases hp : pulls.length > 0 <;> by_cases hv : result.violations.length > 0 <;>
    simp [hp, hv, eq_comm]

/-- Claim C5: both the check-run conclusion and the `status` workflow output
are determined solely by the error count: `"failure"` iff `errorCount > 0`,
`"success"` iff `errorCount = 0`, independent of the warning count. -/
theorem conclusion_and_status_solely_by_error_count (cwd workspaceRoot : String)
    (pulls : List Nat) (result : ModularGuardResult) (runUrl : Option String) :
    (checkRunConclusion result = "failure" ↔ result.summary.errorCount > 0)
    ∧ (checkRunConclusion result = "success" ↔ result.summary.errorCount = 0)
    ∧ (RunEvent.setOutput "status" "failure" ∈ runEvents cwd workspaceRoot pulls result runUrl
        ↔ result.summary.errorCount > 0)
    ∧ (RunEvent.setOutput "status" "success" ∈ runEvents cwd workspaceRoot pulls result runUrl
        ↔ result.summary.errorCount = 0)
    ∧ ∀ w : Nat,
        checkRunConclusion { result with summary := { result.summary with warningCount := w } }
          = checkRunConclusion result := by
  refine ⟨?_, ?_, ?_, ?_, fun w => rfl⟩
  · unfold checkRunConclusion
    by_cases h : result.summary.errorCount > 0 <;> simp [h]
  · unfold checkRunConclusion
    by_cases h : result.summary.errorCount > 0 <;> simp [h] <;> omega
  · rw [mem_runEvents_setOutput_status]
    by_cases h : result.summary.errorCount > 0 <;> simp [h]
  · rw [mem_runEvents_setOutput_status]
    by_cases h : result.summary.errorCount > 0 <;> simp [h] <;> omega

/-- Witness for C5 at a result with one error and three warnings. -/
theorem conclusion_and_status_solely_by_error_count_witness :
    checkRunConclusion errorAndWarningResult = "failure"
    ∧ RunEvent.setOutput "status" "failure"
        ∈ runEvents "/ws" "/ws" [1] errorAndWarningResult none := by
  obtain ⟨h1, _, h3, _, _⟩ :=
    conclusion_and_status_solely_by_error_count "/ws" "/ws" [1] errorAndWarningResult none
  exact ⟨h1.mpr (by decide), h3.mpr (by decide)⟩

/-- Claim C1: the run is marked failed exactly when the violation list is
nonempty, regardless of severity, and the failure message reports both the
error count and the warning count; with an empty violation list no
`setFailed` effect occurs. -/
theorem run_fails_iff_any_violation (cwd workspaceRoot : String) (pulls : List Nat)
    (result : ModularGuardResult) (runUrl : Option String) :
    (result.violations ≠ [] →
      RunEvent.setFailed (runFailedMessage result)
        ∈ runEvents cwd workspaceRoot pulls result runUrl)
    ∧ (result.violations = [] →
      ∀ msg, RunEvent.setFailed msg ∉ runEvents cwd workspaceRoot pulls result runUrl)
    ∧ runFailedMessage result
        = "ModularGuard analysis found " ++ toString result.violations.length
          ++ " violation(s): " ++ toString result.summary.errorCount
          ++ " error(s) and " ++ toString result.summary.warningCount ++ " warning(s)" := by
  refine ⟨?_, ?_, rfl⟩
  · intro hne
    have hv : result.violations.length > 0 := List.length_pos.mpr hne
    unfold runEvents
    by_cases hp : pulls.length > 0 <;> simp [hp, hv]
  · intro he msg
    unfold runEvents
    by_cases hp : pulls.length > 0 <;> simp [hp, he]

/-- Witness for C1 at a warnings-only result (`errorCount = 0`, one warning). -/
theorem run_fails_iff_any_violation_witness :
    RunEvent.setFailed (runFailedMessage warningOnlyResult)
      ∈ runEvents "/ws" "/ws" [1] warningOnlyResult none
    ∧ runFailedMessage warningOnlyResult
        = "ModularGuard analysis found 1 violation(s): 0 error(s) and 1 warning(s)" :=
  ⟨(run_fails_iff_any_violation "/ws" "/ws" [1] warningOnlyResult none).1 (by decide),
   by decide⟩

/-- Claim C2: with zero associated pull requests the run is a valid terminal
state: binary download, analysis execution and console reporting still occur,
the outputs and the pass/fail decision are still produced, and only the
publication steps (check run and PR comments) are skipped. -/
theorem zero_prs_standalone_mode (cwd workspaceRoot : String)
    (result : ModularGuardResult) (runUrl : Option String) :
    RunEvent.downloadBinary ∈ runEvents cwd workspaceRoot [] result runUrl
    ∧ RunEvent.executeAnalysis ∈ runEvents cwd workspaceRoot [] result runUrl
    ∧ RunEvent.printConsoleReport ∈ runEvents cwd workspaceRoot [] result runUrl
    ∧ (∀ r, RunEvent.createCheck r ∉ runEvents cwd workspaceRoot [] result runUrl)
    ∧ (∀ p body, RunEvent.postComment p body ∉ runEvents cwd workspaceRoot [] result runUrl)
    ∧ RunEvent.setOutput "violations-count" (toString result.violations.length)
        ∈ runEvents cwd workspaceRoot [] result runUrl
    ∧ (result.violations = [] →
        RunEvent.logNoViolations ∈ runEvents cwd workspaceRoot [] result runUrl)
    ∧ (result.violations ≠ [] →
        RunEvent.setFailed (runFailedMessage result)
          ∈ runEvents cwd workspaceRoot [] result runUrl) := by
  refine ⟨?_, ?_, ?_, ?_, ?_, ?_, ?_, ?_⟩
  · unfold runEvents; simp
  · unfold runEvents; simp
  · unfold runEvents; simp
  · intro r
    unfold runEvents
    by_cases hv : result.violations.length > 0 <;> simp [hv]
  · intro p body
    unfold runEvents
    by_cases hv : result.violations.length > 0 <;> simp [hv]
  · unfold runEvents
    by_cases hv : result.violations.length > 0 <;> simp [hv]
  · intro he
    unfold runEvents
    simp [he]
  · intro hne
    have hv : result.violations.length > 0 := List.length_pos.mpr hne
    unfold runEvents
    simp [hv]

/-- Witness for C2 at the clean sample result. -/
theorem zero_prs_standalone_mode_witness :
    RunEvent.downloadBinary ∈ runEvents "/ws" "/ws" [] cleanResult none
    ∧ RunEvent.createCheck cleanResult ∉ runEvents "/ws" "/ws" [] cleanResult none
    ∧ RunEvent.logNoViolations ∈ runEvents "/ws" "/ws" [] cleanResult none := by
  obtain ⟨h1, _, _, h4, _, _, h7, _⟩ := zero_prs_standalone_mode "/ws" "/ws" cleanResult none
  exact ⟨h1, h4 cleanResult, h7 rfl⟩

/-- Appending the omission note splits, at the data level, around the omitted
count. -/
theorem data_append_omittedNote (b : String) (n : Nat) :
    (b ++ omittedNote n).data
      = (b.data ++ ("\n\n⚠️ Note: Only showing the first 50 annotations. ").data)
          ++ (toString (n - 50)).data ++ (" additional violation(s) not shown.").data := by
  simp [omittedNote, String.data_append, List.append_assoc]

/-- Claim C4: `createCheckRun` produces `min (violation count) 50`
annotations, and when the count exceeds 50 the summary text contains one
extra sentence stating exactly how many violations were omitted. -/
theorem annotations_capped_at_fifty (result : ModularGuardResult) :
    (checkRunAnnots result).length = min result.violations.length 50
    ∧ (result.violations.length > 50 →
        ∃ pre, (checkRunSummaryText result).data
          = pre ++ (toString (result.violations.length - 50)).data
              ++ (" additional violation(s) not shown.").data) := by
  constructor
  · simp [checkRunAnnots, List.length_map, List.length_take, Nat.min_comm]
  · intro h
    simp only [checkRunSummaryText]
    rw [if_pos h]
    exact ⟨_, data_append_omittedNote _ _⟩

/-- Witness for C4 at the 75-violation sample: exactly 50 annotations, and the
summary states that 25 were omitted. -/
theorem annotations_capped_at_fifty_witness :
    (checkRunAnnots seventyFiveResult).length = 50
    ∧ seventyFiveResult.violations.length - 50 = 25
    ∧ ∃ pre, (checkRunSummaryText seventyFiveResult).data
        = pre ++ (toString (seventyFiveResult.violations.length - 50)).data
            ++ (" additional violation(s) not shown.").data := by
  obtain ⟨h1, h2⟩ := annotations_capped_at_fifty seventyFiveResult
  exact ⟨h1.trans (by decide), by decide, h2 (by decide)⟩

/-- Claim C9 counterexample: with associated PRs `[1, 2]` and a publication
failure on PR 1 only, the loop publishes no comment at all and aborts with the
thrown error — PR 2 is not processed — although the same failure condition
leaves PR 2 perfectly publishable on its own. -/
theorem comment_publication_not_isolated :
    (publishComments (fun _ => false) (fun _ => none) (fun p => p == 1) [1, 2]).1 = []
    ∧ (publishComments (fun _ => false) (fun _ => none) (fun p => p == 1) [1, 2]).2
        = some "Failed to create comment"
    ∧ (publishComments (fun _ => false) (fun _ => none) (fun p => p == 1) [2]).1
        = [{ pull := 2, existingId := none }]
    ∧ (publishComments (fun _ => false) (fun _ => none) (fun p => p == 1) [2]).2 = none := by
  refine ⟨?_, ?_, ?_, ?_⟩ <;> decide

/-- With no publication failure the loop processes every PR, whatever the
lookup outcomes. -/
theorem publishComments_all_ok (lf : Nat → Bool) (ex : Nat → Option Nat) (pf : Nat → Bool) :
    ∀ pulls : List Nat, (∀ p ∈ pulls, pf p = false) →
      (publishComments lf ex pf pulls).2 = none
      ∧ (publishComments lf ex pf pulls).1.map PublishedComment.pull = pulls
  | [] => fun _ => ⟨rfl, rfl⟩
  | q :: rest => fun hok => by
    have hq : pf q = false := hok q (List.mem_cons_self q rest)
    have ht := publishComments_all_ok lf ex pf rest
      (fun r hr => hok r (List.mem_cons_of_mem q hr))
    simp [publishComments, hq, ht.1, ht.2]

/-- The loop aborts at the first PR whose publication fails: everything before
it is published, everything after it is skipped. -/
theorem publishComments_aborts_at_failure (lf : Nat → Bool) (ex : Nat → Option Nat)
    (pf : Nat → Bool) (p : Nat) (l₂ : List Nat) (hp : pf p = true) :
    ∀ l₁ : List Nat, (∀ q ∈ l₁, pf q = false) →
      (publishComments lf ex pf (l₁ ++ p :: l₂)).1.map PublishedComment.pull = l₁
      ∧ (publishComments lf ex pf (l₁ ++ p :: l₂)).2
          = some (publishErrorMessage (findExistingCommentModel lf ex p))
  | [] => fun _ => by simp [publishComments, hp]
  | q :: l => fun hok => by
    have hq : pf q = false := hok q (List.mem_cons_self q l)
    have ht := publishComments_aborts_at_failure lf ex pf p l₂ hp l
      (fun r hr => hok r (List.mem_cons_of_mem q hr))
    simp [publishComments, hq, ht.1, ht.2]

/-- Claim C9 amended: a failure while looking up the existing comment is
caught inside `findExistingComment` and only downgrades that PR to
"create new" — every PR is still processed — but a failure while publishing
through `createOrUpdateComment` is rethrown and aborts the loop: the PRs
before the first failing one are processed and all later ones are skipped. -/
theorem comment_publication_loop_semantics (lookupFails : Nat → Bool)
    (existing : Nat → Option Nat) (publishFails : Nat → Bool) (pulls : List Nat) :
    ((∀ p ∈ pulls, publishFails p = false) →
      (publishComments lookupFails existing publishFails pulls).2 = none
      ∧ (publishComments lookupFails existing publishFails pulls).1.map PublishedComment.pull
          = pulls)
    ∧ ∀ l₁ p l₂, pulls = l₁ ++ p :: l₂ →
        (∀ q ∈ l₁, publishFails q = false) → publishFails p = true →
        (publishComments lookupFails existing publishFails pulls).1.map PublishedComment.pull
            = l₁
        ∧ (publishComments lookupFails existing publishFails pulls).2
            = some (publishErrorMessage (findExistingCommentModel lookupFails existing p)) := by
  refine ⟨publishComments_all_ok lookupFails existing publishFails pulls, ?_⟩
  intro l₁ p l₂ hsplit hok hp
  subst hsplit
  exact publishComments_aborts_at_failure lookupFails existing publishFails p l₂ hp l₁ hok

/-- Witness for the amended C9: with every lookup failing but no publication
failure, both PRs `[3, 4]` are still processed. -/
theorem comment_publication_loop_semantics_witness :
    (publishComments (fun _ => true) (fun _ => some 9) (fun _ => false) [3, 4]).2 = none
    ∧ (publishComments (fun _ => true) (fun _ => some 9) (fun _ => false) [3, 4]).1.map
        PublishedComment.pull = [3, 4] :=
  (comment_publication_loop_semantics (fun _ => true) (fun _ => some 9) (fun _ => false)
    [3, 4]).1 (by decide)

/-- Claim C6: `formatComment` renders exactly one of three mutually exclusive
status lines chosen by priority — the failed badge iff `errorCount > 0`
(regardless of warnings), else the passed-with-warnings badge iff
`warningCount > 0`, else the passed badge — and the output always begins with
the hidden marker, then the heading, the status line and the four summary
counter lines. -/
theorem formatComment_status_line_priority (result : ModularGuardResult)
    (runUrl : Option String) :
    (∃ rest, formatComment result runUrl
        = commentMarker ++ "\n\n" ++ "## ModularGuard Analysis Results\n\n"
          ++ statusBadge result.summary ++ "### Summary\n\n"
          ++ summaryCounters result.summary ++ rest)
    ∧ (statusBadge result.summary = "❌ **Analysis Failed**\n\n"
        ↔ result.summary.errorCount > 0)
    ∧ (statusBadge result.summary = "⚠️ **Analysis Passed with Warnings**\n\n"
        ↔ result.summary.errorCount = 0 ∧ result.summary.warningCount > 0)
    ∧ (statusBadge result.summary = "✅ **Analysis Passed**\n\n"
        ↔ result.summary.errorCount = 0 ∧ result.summary.warningCount = 0) := by
  refine ⟨⟨violationsBlock result.violations ++ runUrlBlock runUrl, ?_⟩, ?_, ?_, ?_⟩
  · apply stringDataExt
    simp [formatComment, String.data_append, List.append_assoc]
  all_goals
    unfold statusBadge
    by_cases he : result.summary.errorCount > 0 <;>
      by_cases hw : result.summary.warningCount > 0 <;>
        simp [he, hw] <;> omega

/-- Witness for C6 at the warnings-only sample result. -/
theorem formatComment_status_line_priority_witness :
    statusBadge warningOnlyResult.summary = "⚠️ **Analysis Passed with Warnings**\n\n" :=
  (formatComment_status_line_priority warningOnlyResult none).2.2.1.mpr (by decide)

/-- Claim C3 counterexample: a parsed value with all three required top-level
fields present, `summary` bound to JSON `null`, still throws — the gate tests
JS truthiness, not mere field presence, so the claimed "any stdout that parses
with those three fields present is returned" fails here. -/
theorem executeModularGuard_throws_despite_fields_present :
    jsonHasField presentButNullJson "summary" = true
    ∧ jsonHasField presentButNullJson "modules" = true
    ∧ jsonHasField presentButNullJson "violations" = true
    ∧ isThrown (executeModularGuard 0 "output" (some presentButNullJson)) = true := by
  refine ⟨?_, ?_, ?_, ?_⟩ <;> decide

/-- Claim C3 amended: `executeModularGuard` throws iff the stdout is empty,
not parseable as JSON, or any of the three required top-level fields is
absent or JS-falsy (`null`, `false`, `0`, `""`); any parse with the three
fields present and truthy is returned as the result, and the captured exit
code plays no role in the decision. -/
theorem executeModularGuard_validation_gate (exitCode : Int) (stdout : String)
    (parsed : Option Json) :
    (isThrown (executeModularGuard exitCode stdout parsed) = false ↔
      stdout ≠ "" ∧ ∃ j, parsed = some j
        ∧ jsonFieldTruthy j "summary" = true
        ∧ jsonFieldTruthy j "modules" = true
        ∧ jsonFieldTruthy j "violations" = true)
    ∧ (∀ j, parsed = some j → stdout ≠ "" →
        jsonFieldTruthy j "summary" = true → jsonFieldTruthy j "modules" = true →
        jsonFieldTruthy j "violations" = true →
        executeModularGuard exitCode stdout parsed = Except.ok j)
    ∧ executeModularGuard exitCode stdout parsed = executeModularGuard 0 stdout parsed := by
  refine ⟨?_, ?_, rfl⟩
  · unfold executeModularGuard isThrown
    by_cases hs : stdout = ""
    · simp [hs]
    · simp only [if_neg hs]
      cases parsed with
      | none => simp [hs]
      | some j =>
        by_cases h1 : jsonFieldTruthy j "summary" = true <;>
        by_cases h2 : jsonFieldTruthy j "modules" = true <;>
        by_cases h3 : jsonFieldTruthy j "violations" = true <;>
          simp [h1, h2, h3, hs]
  · intro j hj hs h1 h2 h3
    subst hj
    unfold executeModularGuard
    simp [hs, h1, h2, h3]

/-- Witness for the amended C3: a well-formed parse is returned unchanged even
with a nonzero exit code. -/
theorem executeModularGuard_validation_gate_witness :
    executeModularGuard 3 "output" (some goodResultJson) = Except.ok goodResultJson :=
  (executeModularGuard_validation_gate 3 "output" (some goodResultJson)).2.1 goodResultJson
    rfl (by decide) (by decide) (by decide) (by decide)

/-- No digit character is the markdown column delimiter. -/
theorem digitChar_ne_pipe (n : Nat) : Nat.digitChar n ≠ '|' := by
  rcases Nat.lt_or_ge n 16 with h | h
  · interval_cases n <;> decide
  · unfold Nat.digitChar
    repeat rw [if_neg (by omega)]
    decide

/-- The digit-accumulator of `Nat.toDigitsCore` never produces a pipe. -/
theorem toDigitsCore_no_pipe (b : Nat) :
    ∀ (fuel n : Nat) (acc : List Char), (∀ c ∈ acc, c ≠ '|') →
      ∀ c ∈ Nat.toDigitsCore b fuel n acc, c ≠ '|'
  | 0, n, acc, hacc => by simpa [Nat.toDigitsCore] using hacc
  | fuel+1, n, acc, hacc => by
    have hcons : ∀ c ∈ Nat.digitChar (n % b) :: acc, c ≠ '|' := by
      intro c hc
      rcases List.mem_cons.mp hc with h | h
      · subst h; exact digitChar_ne_pipe _
      · exact hacc c h
    simp only [Nat.toDigitsCore]
    by_cases h0 : n / b = 0
    · rw [if_pos h0]; exact hcons
    · rw [if_neg h0]; exact toDigitsCore_no_pipe b fuel (n / b) _ hcons

/-- The decimal rendering of a natural number contains no pipe. -/
theorem toString_nat_no_pipe (n : Nat) : '|' ∉ (toString n).data := by
  intro h
  exact toDigitsCore_no_pipe 10 (n + 1) n [] (by simp) '|' h rfl

/-- Every character of a `replaceChar` output is the replacement or an
original character. -/
theorem mem_replaceChar {a b x : Char} {s : String}
    (hx : x ∈ (replaceChar a b s).data) : x = b ∨ x ∈ s.data := by
  rcases List.mem_map.mp hx with ⟨c, hc, hcx⟩
  by_cases hca : c = a
  · rw [if_pos hca] at hcx; exact Or.inl hcx.symm
  · rw [if_neg hca] at hcx; exact Or.inr (hcx ▸ hc)

/-- The replaced character never survives `replaceChar` (when it differs from
its replacement). -/
theorem replaceChar_no_target {a b : Char} (hab : a ≠ b) (s : String) :
    a ∉ (replaceChar a b s).data := by
  intro h
  rcases mem_replaceChar h with h' | h'
  · exact hab h'
  · rcases List.mem_map.mp h with ⟨c, _, hcx⟩
    by_cases hca : c = a
    · rw [if_pos hca] at hcx; exact hab hcx.symm
    · rw [if_neg hca] at hcx; exact hca hcx

/-- `replaceChar` is the identity on strings free of the replaced character. -/
theorem replaceChar_id (a b : Char) (s : String) (h : a ∉ s.data) :
    replaceChar a b s = s := by
  apply stringDataExt
  show s.data.map (fun c => if c = a then b else c) = s.data
  have hcg : ∀ c ∈ s.data, (if c = a then b else c) = c := by
    intro c hc
    by_cases hca : c = a
    · subst hca; exact absurd hc h
    · rw [if_neg hca]
  rw [List.map_congr_left hcg, List.map_id']

/-- The rendered description cell is at most 100 characters. -/
theorem renderedDescription_length_le (d : String) :
    (renderedDescription d).length ≤ 100 :=
  List.length_take_le 100 (replaceChar '\n' ' ' d).data

/-- The rendered description cell contains no newline. -/
theorem renderedDescription_single_line (d : String) :
    '\n' ∉ (renderedDescription d).data := by
  intro h
  exact replaceChar_no_target (by decide) d (List.mem_of_mem_take h)

/-- Claim C7 counterexample: a description containing the column delimiter
survives rendering unescaped, so the table row of `formatComment` has seven
delimiters instead of six — more than the claimed five columns. -/
theorem violation_row_columns_counterexample :
    renderedDescription pipeViolation.description = "a|b"
    ∧ (violationRow pipeViolation).data.count '|' = 7
    ∧ (violationRow pipeViolation).data.count '|' ≠ 6 := by
  refine ⟨?_, ?_, ?_⟩ <;> decide

/-- Claim C7 amended: every violations-table row has a single-line description
cell of at most 100 characters, and — provided none of the rendered fields
contains the delimiter `|` — exactly five columns (six delimiters). -/
theorem violation_row_structure (v : ModularGuardViolation)
    (hsev : '|' ∉ v.severity.data) (hfile : '|' ∉ v.filePath.data)
    (hproj : '|' ∉ v.projectName.data) (href : '|' ∉ v.invalidReference.data)
    (hdesc : '|' ∉ v.description.data) :
    (renderedDescription v.description).length ≤ 100
    ∧ '\n' ∉ (renderedDescription v.description).data
    ∧ (violationRow v).data.count '|' = 6 := by
  refine ⟨renderedDescription_length_le v.description,
    renderedDescription_single_line v.description, ?_⟩
  have hicon : (severityIcon v.severity).data.count '|' = 0 := by
    unfold severityIcon
    by_cases h : v.severity = "Error"
    · rw [if_pos h]; decide
    · rw [if_neg h]; decide
  have hnum : (toString v.lineNumber).data.count '|' = 0 :=
    List.count_eq_zero.mpr (toString_nat_no_pipe v.lineNumber)
  have hdesc' : (renderedDescription v.description).data.count '|' = 0 := by
    apply List.count_eq_zero.mpr
    intro hmem
    have h1 : '|' ∈ (replaceChar '\n' ' ' v.description).data :=
      List.mem_of_mem_take hmem
    rcases mem_replaceChar h1 with h | h
    · exact absurd h (by decide)
    · exact hdesc h
  simp only [violationRow, String.data_append, List.count_append, hicon, hnum, hdesc',
    List.count_eq_zero.mpr hsev, List.count_eq_zero.mpr hproj, List.count_eq_zero.mpr href,
    List.count_eq_zero.mpr hfile]
  decide

/-- Witness for the amended C7 at the sample warning violation. -/
theorem violation_row_structure_witness :
    (renderedDescription sampleWarningViolation.description).length ≤ 100
    ∧ '\n' ∉ (renderedDescription sampleWarningViolation.description).data
    ∧ (violationRow sampleWarningViolation).data.count '|' = 6 :=
  violation_row_structure sampleWarningViolation (by decide) (by decide) (by decide)
    (by decide) (by decide)

/-- `splitSlash` never returns an empty list of segments. -/
theorem splitSlash_ne_nil (l : List Char) : splitSlash l ≠ [] := by
  induction l with
  | nil => simp [splitSlash]
  | cons c rest ih =>
    by_cases hc : c = '/'
    · simp [splitSlash, hc]
    · simp only [splitSlash, if_neg hc]
      cases h : splitSlash rest with
      | nil => simp
      | cons s ss => simp

/-- `splitSlash` distributes over an occurrence of the separator. -/
theorem splitSlash_append (a b : List Char) :
    splitSlash (a ++ '/' :: b) = splitSlash a ++ splitSlash b := by
  induction a with
  | nil => simp [splitSlash]
  | cons c rest ih =>
    by_cases hc : c = '/'
    · simp [splitSlash, hc, ih]
    · simp only [List.cons_append, splitSlash, if_neg hc, List.append_eq]
      rw [ih]
      cases h : splitSlash rest with
      | nil => exact absurd h (splitSlash_ne_nil rest)
      | cons s ss => simp

/-- The nonempty segments of a path distribute over a separator occurrence. -/
theorem segsOfChars_append (a b : List Char) :
    segsOfChars (a ++ '/' :: b) = segsOfChars a ++ segsOfChars b := by
  simp [segsOfChars, splitSlash_append, List.filter_append]

/-- Pieces produced by `splitSlash` contain no separator. -/
theorem no_slash_of_mem_splitSlash (l : List Char) :
    ∀ x ∈ splitSlash l, '/' ∉ x := by
  induction l with
  | nil =>
    intro x hx
    simp [splitSlash] at hx
    simp [hx]
  | cons c rest ih =>
    intro x hx
    by_cases hc : c = '/'
    · subst hc
      simp only [splitSlash, if_pos rfl] at hx
      rcases List.mem_cons.mp hx with h | h
      · simp [h]
      · exact ih x h
    · simp only [splitSlash, if_neg hc] at hx
      cases h : splitSlash rest with
      | nil => exact absurd h (splitSlash_ne_nil rest)
      | cons s ss =>
        rw [h] at hx
        have hs : ∀ y ∈ s :: ss, '/' ∉ y := by
          rw [← h]; exact fun y hy => ih y hy
        rcases List.mem_cons.mp hx with h1 | h1
        · subst h1
          intro hmem
          rcases List.mem_cons.mp hmem with h2 | h2
          · exact hc h2.symm
          · exact hs s (List.mem_cons_self s ss) h2
        · exact hs x (List.mem_cons_of_mem s h1)

/-- Characters of `splitSlash` pieces come from the input. -/
theorem subset_of_mem_splitSlash (l : List Char) :
    ∀ x ∈ splitSlash l, ∀ c ∈ x, c ∈ l := by
  induction l with
  | nil =>
    intro x hx
    simp [splitSlash] at hx
    simp [hx]
  | cons d rest ih =>
    intro x hx c hc
    by_cases hd : d = '/'
    · subst hd
      simp only [splitSlash, if_pos rfl] at hx
      rcases List.mem_cons.mp hx with h | h
      · subst h; simp at hc
      · exact List.mem_cons_of_mem _ (ih x h c hc)
    · simp only [splitSlash, if_neg hd] at hx
      cases h : splitSlash rest with
      | nil => exact absurd h (splitSlash_ne_nil rest)
      | cons s ss =>
        rw [h] at hx
        have hsub : ∀ y ∈ s :: ss, ∀ e ∈ y, e ∈ rest := by
          rw [← h]; exact ih
        rcases List.mem_cons.mp hx with h1 | h1
        · subst h1
          rcases List.mem_cons.mp hc with h2 | h2
          · rw [h2]; exact List.mem_cons_self d rest
          · exact List.mem_cons_of_mem d (hsub s (List.mem_cons_self s ss) c h2)
        · exact List.mem_cons_of_mem d (hsub x (List.mem_cons_of_mem s h1) c hc)

/-- A separator-free character list splits into itself. -/
theorem splitSlash_of_no_slash (l : List Char) (h : '/' ∉ l) : splitSlash l = [l] := by
  induction l with
  | nil => rfl
  | cons c rest ih =>
    have hc : c ≠ '/' := by
      intro hx
      exact h (by rw [← hx]; exact List.mem_cons_self c rest)
    have hrest : '/' ∉ rest := fun hx => h (List.mem_cons_of_mem c hx)
    simp [splitSlash, if_neg hc, ih hrest]

/-- Segments of a path are nonempty, separator-free, and drawn from its
characters. -/
theorem mem_segsOfChars {x : List Char} {l : List Char} (hx : x ∈ segsOfChars l) :
    x ≠ [] ∧ '/' ∉ x ∧ ∀ c ∈ x, c ∈ l := by
  rcases List.mem_filter.mp hx with ⟨hmem, hne⟩
  exact ⟨by simpa using hne, no_slash_of_mem_splitSlash l x hmem,
    subset_of_mem_splitSlash l x hmem⟩

/-- Unfolding `joinSegs` on a list with at least two segments. -/
theorem joinSegs_cons (s : List Char) (r : List (List Char)) (hr : r ≠ []) :
    joinSegs (s :: r) = s ++ '/' :: joinSegs r := by
  cases r with
  | nil => exact absurd rfl hr
  | cons t ts => rfl

/-- Splitting a join of nonempty separator-free segments recovers them. -/
theorem segsOfChars_joinSegs :
    ∀ S : List (List Char), (∀ x ∈ S, x ≠ [] ∧ '/' ∉ x) →
      segsOfChars (joinSegs S) = S
  | [], _ => rfl
  | [s], h => by
    have hs := h s (List.mem_cons_self s [])
    show segsOfChars s = [s]
    unfold segsOfChars
    rw [splitSlash_of_no_slash s hs.2]
    simp [hs.1]
  | s :: t :: ts, h => by
    have hs := h s (List.mem_cons_self s (t :: ts))
    have hrest : ∀ x ∈ t :: ts, x ≠ [] ∧ '/' ∉ x :=
      fun x hx => h x (List.mem_cons_of_mem s hx)
    rw [joinSegs_cons s (t :: ts) (by simp), segsOfChars_append,
      segsOfChars_joinSegs (t :: ts) hrest]
    unfold segsOfChars
    rw [splitSlash_of_no_slash s hs.2]
    simp [hs.1]

/-- Every character of a join is a separator or comes from a segment. -/
theorem mem_joinSegs :
    ∀ (S : List (List Char)) (c : Char), c ∈ joinSegs S → c = '/' ∨ ∃ x ∈ S, c ∈ x
  | [], c, hc => by simp [joinSegs] at hc
  | [s], c, hc => Or.inr ⟨s, List.mem_cons_self s [], hc⟩
  | s :: t :: ts, c, hc => by
    rw [joinSegs_cons s (t :: ts) (by simp)] at hc
    rcases List.mem_append.mp hc with h | h
    · exact Or.inr ⟨s, List.mem_cons_self _ _, h⟩
    · rcases List.mem_cons.mp h with h1 | h1
      · exact Or.inl h1
      · rcases mem_joinSegs (t :: ts) c h1 with h2 | ⟨x, hx, hcx⟩
        · exact Or.inl h2
        · exact Or.inr ⟨x, List.mem_cons_of_mem s hx, hcx⟩

/-- Elements surviving a `normStep` fold come from the initial stack or are
ordinary (non-dot) input segments. -/
theorem mem_foldl_normStep :
    ∀ (l : List (List Char)) (init : List (List Char)) (x : List Char),
      x ∈ l.foldl normStep init →
      x ∈ init ∨ (x ∈ l ∧ x ≠ ['.'] ∧ x ≠ ['.', '.'])
  | [], _, _, hx => Or.inl hx
  | s :: rest, init, x, hx => by
    rcases mem_foldl_normStep rest (normStep init s) x hx with h | h
    · unfold normStep at h
      by_cases h1 : s = ['.']
      · rw [if_pos h1] at h; exact Or.inl h
      · rw [if_neg h1] at h
        by_cases h2 : s = ['.', '.']
        · rw [if_pos h2] at h
          exact Or.inl (List.mem_of_mem_dropLast h)
        · rw [if_neg h2] at h
          rcases List.mem_append.mp h with h3 | h3
          · exact Or.inl h3
          · have hxs : x = s := by simpa using h3
            subst hxs
            exact Or.inr ⟨List.mem_cons_self _ _, h1, h2⟩
    · exact Or.inr ⟨List.mem_cons_of_mem s h.1, h.2⟩

/-- Folding `normStep` over ordinary segments just appends them. -/
theorem foldl_normStep_plain :
    ∀ (l : List (List Char)) (stack : List (List Char)),
      (∀ x ∈ l, x ≠ ['.'] ∧ x ≠ ['.', '.']) → l.foldl normStep stack = stack ++ l
  | [], stack, _ => by simp
  | s :: rest, stack, h => by
    have hs := h s (List.mem_cons_self s rest)
    have hstep : normStep stack s = stack ++ [s] := by
      unfold normStep
      rw [if_neg hs.1, if_neg hs.2]
    rw [List.foldl_cons, hstep,
      foldl_normStep_plain rest (stack ++ [s]) (fun x hx => h x (List.mem_cons_of_mem s hx))]
    simp

/-- Folding `normStep` over `k` parent-directory segments pops `k` entries. -/
theorem foldl_normStep_replicate :
    ∀ (k : Nat) (stack : List (List Char)),
      (List.replicate k ['.', '.']).foldl normStep stack
        = stack.take (stack.length - k)
  | 0, stack => by simp
  | k + 1, stack => by
    rw [List.replicate_succ, List.foldl_cons]
    have hstep : normStep stack ['.', '.'] = stack.dropLast := by
      unfold normStep
      rw [if_neg (by decide), if_pos rfl]
    rw [hstep, foldl_normStep_replicate k stack.dropLast, List.length_dropLast,
      List.dropLast_eq_take, List.take_take]
    congr 1
    omega

/-- The common segment prefix is no longer than the left side. -/
theorem commonSegsLen_le_left :
    ∀ a b : List (List Char), commonSegsLen a b ≤ a.length
  | [], b => by simp [commonSegsLen]
  | _ :: _, [] => by simp [commonSegsLen]
  | x :: xs, y :: ys => by
    unfold commonSegsLen
    by_cases h : x = y
    · rw [if_pos h]
      simpa using commonSegsLen_le_left xs ys
    · rw [if_neg h]; simp

/-- Taking the common prefix from either side gives the same segments. -/
theorem take_commonSegsLen_eq :
    ∀ a b : List (List Char),
      a.take (commonSegsLen a b) = b.take (commonSegsLen a b)
  | [], b => by simp [commonSegsLen]
  | _ :: _, [] => by simp [commonSegsLen]
  | x :: xs, y :: ys => by
    unfold commonSegsLen
    by_cases h : x = y
    · rw [if_pos h]
      simp [List.take_succ_cons, h, take_commonSegsLen_eq xs ys]
    · rw [if_neg h]; simp

/-- Resolving a relative path appends its segments to the resolved base. -/
theorem resolveSegs_of_relative (cwd o : String) (ho : isAbsolutePath o = false) :
    resolveSegs cwd o = (segsOfChars o.data).foldl normStep (normAbsSegs (segsOf cwd)) := by
  unfold resolveSegs
  rw [if_neg (by simp [ho])]
  unfold normAbsSegs segsOf
  rw [show (cwd ++ "/" ++ o).data = cwd.data ++ '/' :: o.data from by
    simp [String.data_append, show ("/" : String).data = ['/'] from rfl]]
  rw [segsOfChars_append, List.foldl_append]

/-- Resolved segments are nonempty, dot-free, separator-free, and drawn from
the working directory or the path. -/
theorem mem_resolveSegs {x : List Char} (cwd p : String) (hx : x ∈ resolveSegs cwd p) :
    x ≠ [] ∧ x ≠ ['.'] ∧ x ≠ ['.', '.'] ∧ '/' ∉ x
    ∧ ∀ c ∈ x, c ∈ cwd.data ∨ c ∈ p.data := by
  unfold resolveSegs normAbsSegs segsOf at hx
  by_cases habs : isAbsolutePath p = true
  · rw [if_pos habs] at hx
    rcases mem_foldl_normStep _ [] x hx with h | ⟨hmem, h1, h2⟩
    · exact absurd h (List.not_mem_nil x)
    · obtain ⟨hne, hns, hsub⟩ := mem_segsOfChars hmem
      exact ⟨hne, h1, h2, hns, fun c hc => Or.inr (hsub c hc)⟩
  · rw [if_neg habs] at hx
    rcases mem_foldl_normStep _ [] x hx with h | ⟨hmem, h1, h2⟩
    · exact absurd h (List.not_mem_nil x)
    · obtain ⟨hne, hns, hsub⟩ := mem_segsOfChars hmem
      refine ⟨hne, h1, h2, hns, fun c hc => ?_⟩
      have hcl := hsub c hc
      rw [show (cwd ++ "/" ++ p).data = cwd.data ++ '/' :: p.data from by
        simp [String.data_append, show ("/" : String).data = ['/'] from rfl]] at hcl
      rcases List.mem_append.mp hcl with h3 | h3
      · exact Or.inl h3
      · rcases List.mem_cons.mp h3 with h4 | h4
        · exact absurd (h4 ▸ hc) hns
        · exact Or.inr h4

/-- Resolving the join of well-formed segments folds them onto the resolved
base (the join is a relative path). -/
theorem resolveSegs_joinSegs (root : String) (S : List (List Char))
    (hS : ∀ x ∈ S, x ≠ [] ∧ '/' ∉ x) :
    resolveSegs root ⟨joinSegs S⟩ = S.foldl normStep (normAbsSegs (segsOf root)) := by
  cases S with
  | nil =>
    have habs : isAbsolutePath (⟨joinSegs []⟩ : String) = false := rfl
    rw [resolveSegs_of_relative root _ habs]
    rfl
  | cons s rest =>
    have hSne : ∀ x ∈ s :: rest, x ≠ [] ∧ '/' ∉ x := hS
    obtain ⟨hne, hns⟩ := hSne s (List.mem_cons_self s rest)
    have habs : isAbsolutePath (⟨joinSegs (s :: rest)⟩ : String) = false := by
      cases s with
      | nil => exact absurd rfl hne
      | cons ch cs =>
        have hch : ch ≠ '/' := by
          intro h
          exact hns (by rw [← h] at *; exact List.mem_cons_self ch cs)
        cases rest with
        | nil =>
          show isAbsolutePath ⟨ch :: cs⟩ = false
          unfold isAbsolutePath
          simp [hch]
        | cons t ts =>
          rw [joinSegs_cons _ _ (by simp)]
          show isAbsolutePath ⟨ch :: (cs ++ '/' :: joinSegs (t :: ts))⟩ = false
          unfold isAbsolutePath
          simp [hch]
    rw [resolveSegs_of_relative root _ habs]
    rw [show (⟨joinSegs (s :: rest)⟩ : String).data = joinSegs (s :: rest) from rfl]
    rw [segsOfChars_joinSegs (s :: rest) hSne]

/-- The segment list computed by `posixRelative`, folded back onto the `from`
side, reconstructs the `to` side. -/
theorem foldl_normStep_relSegs (F T : List (List Char))
    (hT : ∀ x ∈ T, x ≠ ['.'] ∧ x ≠ ['.', '.'])
    (hpre : F.take (commonSegsLen F T) = T.take (commonSegsLen F T)) :
    (List.replicate (F.length - commonSegsLen F T) ['.', '.']
      ++ T.drop (commonSegsLen F T)).foldl normStep F = T := by
  rw [List.foldl_append, foldl_normStep_replicate,
    Nat.sub_sub_self (commonSegsLen_le_left F T), hpre,
    foldl_normStep_plain (T.drop (commonSegsLen F T)) (T.take (commonSegsLen F T))
      (fun x hx => hT x (List.mem_of_mem_drop hx))]
  exact List.take_append_drop _ T

/-- Re-resolving the relative path computed against an absolute root, with the
working directory equal to that root, lands on the original resolution. -/
theorem resolveSegs_roundtrip (root p : String) (habs : isAbsolutePath root = true) :
    resolveSegs root (posixRelative root root p) = resolveSegs root p := by
  have hF : normAbsSegs (segsOf root) = resolveSegs root root := by
    unfold resolveSegs
    rw [if_pos habs]
  have hTplain : ∀ x ∈ resolveSegs root p, x ≠ ['.'] ∧ x ≠ ['.', '.'] := by
    intro x hx
    obtain ⟨_, h2, h3, _, _⟩ := mem_resolveSegs root p hx
    exact ⟨h2, h3⟩
  have hSprops : ∀ x ∈ (List.replicate
        ((resolveSegs root root).length
          - commonSegsLen (resolveSegs root root) (resolveSegs root p)) ['.', '.']
        ++ (resolveSegs root p).drop
            (commonSegsLen (resolveSegs root root) (resolveSegs root p))),
      x ≠ [] ∧ '/' ∉ x := by
    intro x hx
    rcases List.mem_append.mp hx with h | h
    · rw [List.eq_of_mem_replicate h]
      exact ⟨by decide, by decide⟩
    · obtain ⟨h1, _, _, h4, _⟩ := mem_resolveSegs root p (List.mem_of_mem_drop h)
      exact ⟨h1, h4⟩
  rw [show posixRelative root root p
      = (⟨joinSegs (List.replicate
          ((resolveSegs root root).length
            - commonSegsLen (resolveSegs root root) (resolveSegs root p)) ['.', '.']
          ++ (resolveSegs root p).drop
              (commonSegsLen (resolveSegs root root) (resolveSegs root p)))⟩ : String)
    from rfl]
  rw [resolveSegs_joinSegs root _ hSprops, hF]
  exact foldl_normStep_relSegs (resolveSegs root root) (resolveSegs root p) hTplain
    (take_commonSegsLen_eq _ _)

/-- The `posixRelative` output contains no backslash when neither input does. -/
theorem posixRelative_no_backslash (root p : String)
    (hp : '\\' ∉ p.data) (hr : '\\' ∉ root.data) :
    '\\' ∉ (posixRelative root root p).data := by
  intro h
  rcases mem_joinSegs _ '\\' h with h3 | ⟨x, hx, hcx⟩
  · exact absurd h3 (by decide)
  · rcases List.mem_append.mp hx with h4 | h4
    · rw [List.eq_of_mem_replicate h4] at hcx
      exact absurd hcx (by decide)
    · obtain ⟨_, _, _, _, hsub⟩ := mem_resolveSegs root p (List.mem_of_mem_drop h4)
      rcases hsub '\\' hcx with h5 | h5
      · exact hr h5
      · exact hp h5

/-- `posixRelative` only depends on the `to` side through its resolution. -/
theorem posixRelative_congr (cwd fromP : String) {t₁ t₂ : String}
    (h : resolveSegs cwd t₁ = resolveSegs cwd t₂) :
    posixRelative cwd fromP t₁ = posixRelative cwd fromP t₂ := by
  simp only [posixRelative]
  rw [h]

/-- Claim C8 counterexample: `toWorkspaceRelativePath` is not idempotent for
every input: `path.relative` resolves its relative own-output against the
process working directory, so when that directory (here `/x`) differs from the
workspace root `/ws`, re-normalizing `"a.cs"` yields `"../x/a.cs"`. -/
theorem toWorkspaceRelativePath_not_idempotent :
    toWorkspaceRelativePath "/x" "/ws/a.cs" "/ws" = "a.cs"
    ∧ toWorkspaceRelativePath "/x" (toWorkspaceRelativePath "/x" "/ws/a.cs" "/ws") "/ws"
        = "../x/a.cs"
    ∧ toWorkspaceRelativePath "/x" (toWorkspaceRelativePath "/x" "/ws/a.cs" "/ws") "/ws"
        ≠ toWorkspaceRelativePath "/x" "/ws/a.cs" "/ws" := by
  refine ⟨?_, ?_, ?_⟩ <;> decide

/-- Claim C8 amended: the output of `toWorkspaceRelativePath` contains only
forward-slash separators for every input (including mixed-separator input),
and the function is idempotent when the process working directory equals the
workspace root, the root is absolute, and neither the root nor the input path
contains a backslash. -/
theorem toWorkspaceRelativePath_normalization (root p : String)
    (habs : isAbsolutePath root = true)
    (hp : '\\' ∉ p.data) (hr : '\\' ∉ root.data) :
    toWorkspaceRelativePath root (toWorkspaceRelativePath root p root) root
      = toWorkspaceRelativePath root p root
    ∧ ∀ cwd q ws : String, '\\' ∉ (toWorkspaceRelativePath cwd q ws).data := by
  have hslash : ∀ cwd q ws : String, '\\' ∉ (toWorkspaceRelativePath cwd q ws).data :=
    fun cwd q ws => replaceChar_no_target (by decide) _
  refine ⟨?_, hslash⟩
  have hnb : '\\' ∉ (posixRelative root root p).data :=
    posixRelative_no_backslash root p hp hr
  have hid : toWorkspaceRelativePath root p root = posixRelative root root p := by
    unfold toWorkspaceRelativePath
    exact replaceChar_id _ _ _ hnb
  rw [hid]
  unfold toWorkspaceRelativePath
  rw [posixRelative_congr root root (resolveSegs_roundtrip root p habs)]
  exact replaceChar_id _ _ _ hnb

/-- Witness for the amended C8: idempotence at working directory `/ws` equals
workspace root, and slash-only output on a mixed-separator input. -/
theorem toWorkspaceRelativePath_normalization_witness :
    toWorkspaceRelativePath "/ws" (toWorkspaceRelativePath "/ws" "/ws/src/File.cs" "/ws") "/ws"
      = toWorkspaceRelativePath "/ws" "/ws/src/File.cs" "/ws"
    ∧ '\\' ∉ (toWorkspaceRelativePath "/ws" "/ws/src\\mod\\File.cs" "/ws").data := by
  obtain ⟨h1, h2⟩ := toWorkspaceRelativePath_normalization "/ws" "/ws/src/File.cs"
    (by decide) (by decide) (by decide)
  exact ⟨h1, h2 "/ws" "/ws/src\\mod\\File.cs" "/ws"⟩
